import Mathlib

/-!
Verification of the retrieval / ingestion core of the `rag_agent_v0`
repository against its natural-language specification.

Each section shallowly embeds one portion of the Python source:

* `src/backend/utils/utils.py` and the token-budget trimmer of
  `src/backend/agents/ai_expert_v1.py::retrieve_relevant_documentation`;
* the four-way retrieval fan-out and id-deduplication of
  `src/backend/agents/ai_expert_v1.py`;
* `src/backend/utils/reranking_v1.py` (TTLCache, smart_normalize,
  rerank_chunks);
* `src/process_docs_2/_02_text_splitter.py` (regulatory chunking and
  article subdivision);
* `src/backend/agents/memory_manager.py` (save_messages / load_messages);
* `src/process_docs_2/_04_data_ingester.py` (per-chunk insert loop and
  quarantine).

External capabilities (the OpenAI client, the Supabase store, the BM25
library, the tokenizer) are modelled as explicit parameters or as idealized
data, as noted at each definition.
-/

namespace RagAgent

/-! ## Tokenizer capability and the token-budget trimmer (claim C1)

`utils/utils.py` delegates to the `tiktoken` BPE tokenizer.  We model a
text at token granularity: a text is its sequence of token ids, so
`count_tokens` is the length and decoding after `tokens[:max_tokens]` is
`List.take`.  This idealization makes token counting exactly additive
under concatenation, which is the most favorable reading for the budget
claim: any shortfall we exhibit is not an artifact of BPE boundary
effects. -/

/-- A text, represented by its token-id sequence under the reference
tokenizer (`cl100k_base` family). -/
abbrev TokText := List Nat

/-- `utils/utils.py::count_tokens`: `len(encoding.encode(text))`. -/
def count_tokens (t : TokText) : Nat := t.length

/-- `utils/utils.py::truncate_text`: return the text unchanged when it has
at most `maxTokens` tokens, else decode only the first `maxTokens`
tokens. -/
def truncate_text (t : TokText) (maxTokens : Nat) : TokText :=
  if count_tokens t ≤ maxTokens then t else t.take maxTokens

/-- `ai_expert_v1.py` line 46. -/
def MAX_TOTAL_TOKENS : Nat := 100000

/-- The token-id sequence of the separator string `"\n\n---\n\n"` that
`retrieve_relevant_documentation` places between chunks (three tokens
under the reference tokenizer; only nonemptiness matters below). -/
def SEP_TOKENS : TokText := [271, 4513, 271]

/-- Python `"\n\n---\n\n".join(chunks)`. -/
def joinSep : List TokText → TokText
  | [] => []
  | [c] => c
  | c :: rest => c ++ SEP_TOKENS ++ joinSep rest

/-- The truncation loop of `retrieve_relevant_documentation`
(`ai_expert_v1.py` lines 944-959): chunks are accumulated while the
running total of their individual token counts stays within the budget;
the first chunk that would overflow is truncated to the remaining budget
and the loop breaks, dropping every later chunk. -/
def truncLoop (maxTotal : Nat) : List TokText → Nat → List TokText
  | [], _ => []
  | c :: rest, acc =>
    if acc + count_tokens c > maxTotal then
      [truncate_text c (maxTotal - acc)]
    else
      c :: truncLoop maxTotal rest (acc + count_tokens c)

/-- The chunks that make it into the combined context: the trimmer runs
only when the joined text exceeds `MAX_TOTAL_TOKENS`
(`ai_expert_v1.py` line 942). -/
def includedChunks (chunks : List TokText) : List TokText :=
  if count_tokens (joinSep chunks) > MAX_TOTAL_TOKENS then
    truncLoop MAX_TOTAL_TOKENS chunks 0
  else chunks

/-- `ai_expert_v1.py` lines 936-962: join, and re-join the trimmed chunk
list when over budget. -/
def combine_and_truncate (chunks : List TokText) : TokText :=
  joinSep (includedChunks chunks)

/-- `ai_expert_v1.py` lines 978-989: when query-understanding info is
present a metadata header is prepended to the already-trimmed context
before returning. -/
def retrieve_return (header : Option TokText) (chunks : List TokText) : TokText :=
  match header with
  | some h => h ++ combine_and_truncate chunks
  | none => combine_and_truncate chunks

/-- Sum of the per-chunk token counts, the quantity the source's loop
actually budgets. -/
def sumTokens (chunks : List TokText) : Nat :=
  (chunks.map count_tokens).sum

theorem truncLoop_sum_le (maxTotal : Nat) :
    ∀ (chunks : List TokText) (acc : Nat), acc ≤ maxTotal →
      acc + sumTokens (truncLoop maxTotal chunks acc) ≤ maxTotal := by
  intro chunks
  induction chunks with
  | nil => intro acc h; simpa [truncLoop, sumTokens] using h
  | cons c rest ih =>
    intro acc hacc
    by_cases hover : acc + count_tokens c > maxTotal
    · have htr : count_tokens (truncate_text c (maxTotal - acc)) = maxTotal - acc := by
        have hgt : ¬ count_tokens c ≤ maxTotal - acc := by omega
        simp only [truncate_text, count_tokens] at hgt ⊢
        rw [if_neg hgt, List.length_take]
        omega
      simp only [truncLoop, if_pos hover, sumTokens, List.map_cons, List.map_nil,
        List.sum_cons, List.sum_nil]
      omega
    · have hle : acc + count_tokens c ≤ maxTotal := by omega
      simp only [truncLoop, if_neg hover, sumTokens, List.map_cons, List.sum_cons]
      have := ih (acc + count_tokens c) hle
      simp only [sumTokens] at this
      omega

theorem sumTokens_le_joinSep : ∀ chunks : List TokText,
    sumTokens chunks ≤ count_tokens (joinSep chunks) := by
  intro chunks
  induction chunks with
  | nil => simp [sumTokens, joinSep, count_tokens]
  | cons c rest ih =>
    cases rest with
    | nil => simp [sumTokens, joinSep, count_tokens]
    | cons d ds =>
      simp only [sumTokens, joinSep, count_tokens, List.map_cons, List.sum_cons,
        List.length_append] at ih ⊢
      omega

/-- C1 (amended): what the trimmer actually bounds is the **sum of the
per-chunk token counts** of the chunks assembled into the context; the
`"\n\n---\n\n"` separators (and any metadata header) are not charged
against the budget. -/
theorem retrieve_context_chunk_token_budget (chunks : List TokText) :
    sumTokens (includedChunks chunks) ≤ MAX_TOTAL_TOKENS ∧
      combine_and_truncate chunks = joinSep (includedChunks chunks) := by
  refine ⟨?_, rfl⟩
  unfold includedChunks
  by_cases hover : count_tokens (joinSep chunks) > MAX_TOTAL_TOKENS
  · rw [if_pos hover]
    have := truncLoop_sum_le MAX_TOTAL_TOKENS chunks 0 (Nat.zero_le _)
    omega
  · rw [if_neg hover]
    have := sumTokens_le_joinSep chunks
    omega

/-- A 99997-token chunk followed by a 10-token chunk. -/
def c1BigChunk : TokText := List.replicate 99997 7

def c1SmallChunk : TokText := List.replicate 10 9

/-- C1 counterexample: the claim says the returned context's token count is
at most `MAX_TOTAL_TOKENS`.  With a 99997-token chunk and a 10-token chunk
the joined text has 100010 tokens, the trimmer keeps the first chunk and
truncates the second to 3 tokens (budgeting exactly 100000 chunk tokens),
but the returned string re-inserts the 3-token separator: 100003 tokens,
over budget. -/
theorem c1_counterexample :
    count_tokens (retrieve_return none [c1BigChunk, c1SmallChunk]) >
      MAX_TOTAL_TOKENS := by
  have hbigL : c1BigChunk.length = 99997 := List.length_replicate 99997 7
  have hsmallL : c1SmallChunk.length = 10 := List.length_replicate 10 9
  have hbig : count_tokens c1BigChunk = 99997 := hbigL
  have hsmall : count_tokens c1SmallChunk = 10 := hsmallL
  have hjoin : count_tokens (joinSep [c1BigChunk, c1SmallChunk]) = 100010 := by
    show ((c1BigChunk ++ SEP_TOKENS) ++ c1SmallChunk).length = 100010
    rw [List.length_append, List.length_append, hbigL, hsmallL]
    rfl
  have htrunc : truncate_text c1SmallChunk (MAX_TOTAL_TOKENS - (0 + count_tokens c1BigChunk))
      = List.replicate 3 9 := by
    rw [hbig]
    rw [truncate_text, if_neg (by rw [hsmall]; decide)]
    show (List.replicate 10 9).take (MAX_TOTAL_TOKENS - (0 + 99997)) = List.replicate 3 9
    rw [List.take_replicate]
    rfl
  have hloop : truncLoop MAX_TOTAL_TOKENS [c1BigChunk, c1SmallChunk] 0
      = [c1BigChunk, List.replicate 3 9] := by
    rw [truncLoop, if_neg (by rw [hbig]; decide)]
    rw [truncLoop, if_pos (by rw [hbig, hsmall]; decide)]
    rw [htrunc]
  have hincl : includedChunks [c1BigChunk, c1SmallChunk]
      = [c1BigChunk, List.replicate 3 9] := by
    rw [includedChunks, if_pos (by rw [hjoin]; decide), hloop]
  show count_tokens (combine_and_truncate [c1BigChunk, c1SmallChunk]) > MAX_TOTAL_TOKENS
  rw [combine_and_truncate, hincl]
  show ((c1BigChunk ++ SEP_TOKENS) ++ List.replicate 3 9).length > MAX_TOTAL_TOKENS
  rw [List.length_append, List.length_append, hbigL]
  decide

/-! ## Data ingester (claim C6)

`src/process_docs_2/_04_data_ingester.py::DataIngester.process_document`,
lines 93-135.  The Supabase insert (`_insert_chunk`) catches every
exception and reports success or an error string, so we model it as a
result-valued function supplied as a parameter.  Batching (groups of 5
with a sleep between batches) does not change which chunks are attempted
or in which order, so the embedded loop runs over the flat chunk list. -/

/-- Outcome of one document's ingest run: the counters the source keeps,
the `ingested` checkpoint flag, and the quarantine-file content (written
only when some chunk failed). -/
structure IngestOutcome (χ : Type) where
  successful_inserts : Nat
  failed_chunks : List (χ × String)
  ingested : Bool
  quarantine : Option (List (χ × String))
  deriving Repr, DecidableEq

def insOk {χ : Type} (insert : χ → Except String Unit) (c : χ) : Bool :=
  match insert c with
  | .ok _ => true
  | .error _ => false

def insFail {χ : Type} (insert : χ → Except String Unit) (c : χ) :
    Option (χ × String) :=
  match insert c with
  | .ok _ => none
  | .error e => some (c, e)

def ingestLoop {χ : Type} (insert : χ → Except String Unit) (chunks : List χ) :
    Nat × List (χ × String) :=
  chunks.foldl
    (fun acc c =>
      match insert c with
      | .ok _ => (acc.1 + 1, acc.2)
      | .error e => (acc.1, acc.2 ++ [(c, e)]))
    (0, [])

def ingest_document {χ : Type} (insert : χ → Except String Unit) (chunks : List χ) :
    IngestOutcome χ :=
  let r := ingestLoop insert chunks
  { successful_inserts := r.1
    failed_chunks := r.2
    ingested := r.1 == chunks.length
    quarantine := if r.2.isEmpty then none else some r.2 }

theorem ingestLoop_general {χ : Type} (insert : χ → Except String Unit) :
    ∀ (chunks : List χ) (s : Nat) (f : List (χ × String)),
      chunks.foldl
        (fun acc c =>
          match insert c with
          | .ok _ => (acc.1 + 1, acc.2)
          | .error e => (acc.1, acc.2 ++ [(c, e)]))
        (s, f)
      = (s + chunks.countP (insOk insert), f ++ chunks.filterMap (insFail insert)) := by
  intro chunks
  induction chunks with
  | nil => intro s f; simp
  | cons c rest ih =>
    intro s f
    cases h : insert c with
    | ok u =>
      have hp : insOk insert c = true := by simp [insOk, h]
      have hf : insFail insert c = none := by simp [insFail, h]
      simp only [List.foldl_cons, h]
      rw [ih, List.countP_cons_of_pos _ _ hp, List.filterMap_cons_none hf]
      congr 1
      omega
    | error e =>
      have hp : ¬ insOk insert c = true := by simp [insOk, h]
      have hf : insFail insert c = some (c, e) := by simp [insFail, h]
      simp only [List.foldl_cons, h]
      rw [ih, List.countP_cons_of_neg _ _ hp, List.filterMap_cons_some hf]
      congr 1
      simp

theorem countP_add_filterMap {χ : Type} (insert : χ → Except String Unit) :
    ∀ chunks : List χ,
      chunks.countP (insOk insert) + (chunks.filterMap (insFail insert)).length
        = chunks.length := by
  intro chunks
  induction chunks with
  | nil => simp
  | cons c rest ih =>
    cases h : insert c with
    | ok u =>
      have hp : insOk insert c = true := by simp [insOk, h]
      have hf : insFail insert c = none := by simp [insFail, h]
      rw [List.countP_cons_of_pos _ _ hp, List.filterMap_cons_none hf,
        List.length_cons]
      omega
    | error e =>
      have hp : ¬ insOk insert c = true := by simp [insOk, h]
      have hf : insFail insert c = some (c, e) := by simp [insFail, h]
      rw [List.countP_cons_of_neg _ _ hp, List.filterMap_cons_some hf,
        List.length_cons, List.length_cons]
      omega

theorem ingest_document_spec {χ : Type} (insert : χ → Except String Unit)
    (chunks : List χ) :
    ((ingest_document insert chunks).ingested = true ↔
        ∀ c ∈ chunks, insOk insert c = true) ∧
      (ingest_document insert chunks).failed_chunks
        = chunks.filterMap (insFail insert) ∧
      (ingest_document insert chunks).successful_inserts +
          (ingest_document insert chunks).failed_chunks.length = chunks.length ∧
      ((ingest_document insert chunks).failed_chunks ≠ [] →
        (ingest_document insert chunks).quarantine
          = some (ingest_document insert chunks).failed_chunks) := by
  have hloop := ingestLoop_general insert chunks 0 []
  have hcount : (ingestLoop insert chunks).1 = chunks.countP (insOk insert) := by
    unfold ingestLoop; rw [hloop]; simp
  have hfail : (ingestLoop insert chunks).2 = chunks.filterMap (insFail insert) := by
    unfold ingestLoop; rw [hloop]; simp
  refine ⟨?_, ?_, ?_, ?_⟩
  · show ((ingestLoop insert chunks).1 == chunks.length) = true ↔ _
    rw [beq_iff_eq, hcount]
    exact List.countP_eq_length
  · exact hfail
  · show (ingestLoop insert chunks).1 + (ingestLoop insert chunks).2.length = _
    rw [hcount, hfail]
    exact countP_add_filterMap insert chunks
  · intro hne
    have hE : ¬ ((ingestLoop insert chunks).2.isEmpty = true) := by
      rw [List.isEmpty_iff]
      exact hne
    show (if (ingestLoop insert chunks).2.isEmpty then none else
        some (ingestLoop insert chunks).2) = _
    rw [if_neg hE]
    rfl

/-! ## Embedding failure fallback and the zero-embedding guard (claim C8)

`src/backend/agents/ai_expert_v1.py::get_embedding` (lines 444-456) wraps
the provider call in a `try/except` that returns `[0] * 1536` on any
failure; `retrieve_relevant_documentation` (lines 592-599) aborts with
`"No relevant documentation found."` when `not any(query_embedding)`,
before any Supabase call is issued.  The provider is a capability and is
modelled as a result-valued function; embedding components are modelled as
rationals. -/

/-- `get_embedding`: the provider's vector on success, the all-zero
1536-dimensional vector on any exception. -/
def get_embedding (provider : String → Except String (List ℚ)) (text : String) :
    List ℚ :=
  match provider text with
  | .ok v => v
  | .error _ => List.replicate 1536 0

/-- The guard `not any(query_embedding)` of
`retrieve_relevant_documentation`: true iff no component is nonzero. -/
def zero_embedding_guard (emb : List ℚ) : Bool :=
  ! emb.any (fun x => x != 0)

/-- The part of `retrieve_relevant_documentation` that runs once the query
embedding is available: the zero-embedding sentinel short-circuits to the
fixed message with no store query; otherwise the search pipeline (vector,
cluster, BM25 and entity searches, abstracted here together with its count
of store queries) runs. -/
def retrieve_from_embedding (emb : List ℚ)
    (searchPipeline : List ℚ → String × Nat) : String × Nat :=
  if zero_embedding_guard emb then ("No relevant documentation found.", 0)
  else searchPipeline emb

theorem zero_embedding_guard_replicate :
    zero_embedding_guard (List.replicate 1536 (0 : ℚ)) = true := by
  have hany : (List.replicate 1536 (0 : ℚ)).any (fun x => x != 0) = false := by
    rw [List.any_eq_false]
    intro x hx
    rw [List.eq_of_mem_replicate hx]
    simp
  unfold zero_embedding_guard
  rw [hany]
  rfl

/-- C8: a provider failure never propagates: `get_embedding` returns the
all-zero vector of length 1536, and the retrieval step then returns
`"No relevant documentation found."` having issued zero store queries,
whatever the search pipeline would have done. -/
theorem get_embedding_failure_short_circuits
    (provider : String → Except String (List ℚ)) (text e : String)
    (h : provider text = .error e) :
    get_embedding provider text = List.replicate 1536 0 ∧
      (get_embedding provider text).length = 1536 ∧
      (∀ x ∈ get_embedding provider text, x = 0) ∧
      ∀ searchPipeline : List ℚ → String × Nat,
        retrieve_from_embedding (get_embedding provider text) searchPipeline
          = ("No relevant documentation found.", 0) := by
  have hge : get_embedding provider text = List.replicate 1536 0 := by
    unfold get_embedding
    rw [h]
  refine ⟨hge, ?_, ?_, ?_⟩
  · rw [hge]
    exact List.length_replicate _ _
  · rw [hge]
    intro x hx
    exact List.eq_of_mem_replicate hx
  · intro sp
    unfold retrieve_from_embedding
    rw [hge, if_pos zero_embedding_guard_replicate]

/-- A provider that always fails, and a pipeline that would have issued one
store query, used to witness the short-circuit at a concrete input. -/
def c8FailingProvider : String → Except String (List ℚ) :=
  fun _ => .error "embedding service unavailable"

def c8Pipeline : List ℚ → String × Nat := fun _ => ("some context", 4)

/-- C8 witness: the theorem applied at a concrete failing provider. -/
theorem get_embedding_failure_short_circuits_witness :
    get_embedding c8FailingProvider "gdpr" = List.replicate 1536 0 ∧
      retrieve_from_embedding (get_embedding c8FailingProvider "gdpr") c8Pipeline
        = ("No relevant documentation found.", 0) :=
  ⟨(get_embedding_failure_short_circuits c8FailingProvider "gdpr"
      "embedding service unavailable" rfl).1,
    (get_embedding_failure_short_circuits c8FailingProvider "gdpr"
      "embedding service unavailable" rfl).2.2.2 c8Pipeline⟩

/-! ## Retrieval fan-out and chunk-id deduplication (claim C2)

`retrieve_relevant_documentation` (`ai_expert_v1.py` lines 824-859) runs
the vector search first, then the cluster / BM25 / entity searches in
parallel, each receiving a copy of `matched_ids` — the ids found by the
**vector** search only.  We embed each search at the chunk-id level: a
store row carries the fields the searches consult, the store itself and
the BM25 scoring function (the external `rank_bm25` library) are
parameters. -/

/-- One row of the `pd_peru` chunks table as the searches see it.
`parent_status` models the joined `regulatory_documents` record: `none`
when no parent document row exists, `some s` for a parent with status
field `s`. -/
structure ChunkRow where
  id : Nat
  title : String
  summary : String
  content : String
  status : Option String
  cluster_id : Option Int
  parent_status : Option (Option String)
  deriving Repr, DecidableEq

/-- The append-if-unseen fold shared by the three complementary searches:
`if doc_id not in new_matched_ids: new_matched_ids.add(doc_id); append`. -/
def dedupFold {α : Type} [DecidableEq α] (seen : List α) : List α → List α
  | [] => []
  | x :: xs => if x ∈ seen then dedupFold seen xs else x :: dedupFold (x :: seen) xs

theorem dedupFold_not_mem_seen {α : Type} [DecidableEq α] :
    ∀ (xs : List α) (seen : List α), ∀ a ∈ dedupFold seen xs, a ∉ seen := by
  intro xs
  induction xs with
  | nil => intro seen a ha; simp [dedupFold] at ha
  | cons x rest ih =>
    intro seen a ha
    by_cases hx : x ∈ seen
    · rw [dedupFold, if_pos hx] at ha
      exact ih seen a ha
    · rw [dedupFold, if_neg hx] at ha
      rcases List.mem_cons.mp ha with rfl | hmem
      · exact hx
      · have := ih (x :: seen) a hmem
        intro hs
        exact this (List.mem_cons_of_mem x hs)

theorem dedupFold_nodup {α : Type} [DecidableEq α] :
    ∀ (xs : List α) (seen : List α), (dedupFold seen xs).Nodup := by
  intro xs
  induction xs with
  | nil => intro seen; simp [dedupFold]
  | cons x rest ih =>
    intro seen
    by_cases hx : x ∈ seen
    · rw [dedupFold, if_pos hx]
      exact ih seen
    · rw [dedupFold, if_neg hx]
      refine List.nodup_cons.mpr ⟨?_, ih (x :: seen)⟩
      intro hmem
      exact dedupFold_not_mem_seen rest (x :: seen) x hmem (List.mem_cons_self x seen)

/-- Ids returned by the vector search, which populate `matched_ids`
(`ai_expert_v1.py` lines 616-630). -/
def vectorIds (vres : List ChunkRow) : List Nat := vres.map (·.id)

/-- The distinct `metadata.cluster_id` values of the vector hits, excluding
`None` and `-1` (`ai_expert_v1.py` lines 632-636); a Python set, modelled
as the first-occurrence dedup of the value list. -/
def vectorClusterIds (vres : List ChunkRow) : List Int :=
  dedupFold [] ((vres.filterMap (·.cluster_id)).filter (fun c => c ≠ -1))

/-- The inner per-cluster collection of `get_cluster_chunks`
(`ai_expert_v1.py` lines 476-506): keep every returned id that is not
among the vector-search ids. -/
def clusterCandidateIds (matched : List Nat) (docs : List ChunkRow) : List Nat :=
  docs.filterMap (fun d => if d.id ∈ matched then none else some d.id)

/-- `get_cluster_chunks` (`ai_expert_v1.py` lines 459-528): per-cluster
results are concatenated and folded through `new_matched_ids`, which
starts as a copy of the vector-search ids. -/
def get_cluster_chunks (store : Int → List ChunkRow) (clusterIds : List Int)
    (matched : List Nat) : List Nat :=
  dedupFold matched ((clusterIds.map fun cid => clusterCandidateIds matched (store cid)).flatten)

/-- The `vigente` filter of `get_bm25_chunks` (`ai_expert_v1.py` lines
663-686), the three cases of the `match_pd_peru` RPC. -/
def is_vigente (d : ChunkRow) : Bool :=
  match d.parent_status with
  | some ps => ps == some "vigente"
  | none => d.status == some "vigente" || d.status.isNone

/-- `get_bm25_chunks` (`ai_expert_v1.py` lines 647-759): filter the corpus
to `vigente` chunks, rank by BM25 score descending (the `rank_bm25`
library is external; `scoreOf` stands for its scores over the tokenized
corpus), keep the 15 best, and append each positively-scored id not
already among the vector-search ids. -/
def get_bm25_chunks (scoreOf : ChunkRow → ℚ) (matched : List Nat)
    (corpus : List ChunkRow) : List Nat :=
  let filtered := corpus.filter is_vigente
  let best := (filtered.insertionSort fun a b => scoreOf b ≤ scoreOf a).take 15
  dedupFold matched ((best.filter fun d => 0 < scoreOf d).map (·.id))

/-- One entity recognized by query understanding. -/
structure EntityInfo where
  type : String
  value : String
  deriving Repr, DecidableEq

def priorityTypes : List String :=
  ["regulation", "program", "process", "technical_requirement"]

def lowerData (s : String) : List Char := s.data.map Char.toLower

/-- `pat` occurs at the start of `s`. -/
def isPrefixB : List Char → List Char → Bool
  | [], _ => true
  | _ :: _, [] => false
  | p :: ps, c :: cs => p == c && isPrefixB ps cs

/-- `pat` occurs contiguously somewhere in `s` (SQL `LIKE '%pat%'`). -/
def containsSub (pat : List Char) : List Char → Bool
  | [] => pat.isEmpty
  | c :: cs => isPrefixB pat (c :: cs) || containsSub pat cs

/-- The SQL predicate `LOWER(content) LIKE '%v%' OR LOWER(title) LIKE '%v%'`
built by `get_entity_based_chunks` (`ai_expert_v1.py` lines 784-798). -/
def entityMatches (e : EntityInfo) (d : ChunkRow) : Bool :=
  containsSub (lowerData e.value) (lowerData d.content) ||
    containsSub (lowerData e.value) (lowerData d.title)

/-- `get_entity_based_chunks` (`ai_expert_v1.py` lines 762-822): empty when
no entities (or none of a priority type); otherwise the matching chunks
are folded through a fresh copy of the vector-search ids. -/
def get_entity_based_chunks (entities : List EntityInfo) (matched : List Nat)
    (corpus : List ChunkRow) : List Nat :=
  if entities.isEmpty then []
  else
    let relevant := entities.filter fun e => e.type ∈ priorityTypes
    if relevant.isEmpty then []
    else
      dedupFold matched
        ((corpus.filter fun d => relevant.any fun e => entityMatches e d).map (·.id))

/-- The merged candidate id set before reranking (`ai_expert_v1.py` line
859): `vector ++ cluster ++ bm25 ++ entity`. -/
def retrieve_merged_ids (vres : List ChunkRow) (store : Int → List ChunkRow)
    (scoreOf : ChunkRow → ℚ) (corpus : List ChunkRow)
    (entities : List EntityInfo) : List Nat :=
  vectorIds vres
    ++ get_cluster_chunks store (vectorClusterIds vres) (vectorIds vres)
    ++ get_bm25_chunks scoreOf (vectorIds vres) corpus
    ++ get_entity_based_chunks entities (vectorIds vres) corpus

/-- C2 (amended): each complementary search is internally duplicate-free
and never repeats a **vector-search** id, and the merged list is the
concatenation `vector ++ cluster ++ bm25 ++ entity`; the cluster, BM25 and
entity searches do not see each other's ids, so an id absent from the
vector results may still occur in more than one of the three complementary
result lists. -/
theorem retrieve_merged_dedup_per_search (vres : List ChunkRow)
    (store : Int → List ChunkRow) (scoreOf : ChunkRow → ℚ)
    (corpus : List ChunkRow) (entities : List EntityInfo) :
    (get_cluster_chunks store (vectorClusterIds vres) (vectorIds vres)).Nodup ∧
      (∀ a ∈ get_cluster_chunks store (vectorClusterIds vres) (vectorIds vres),
        a ∉ vectorIds vres) ∧
      (get_bm25_chunks scoreOf (vectorIds vres) corpus).Nodup ∧
      (∀ a ∈ get_bm25_chunks scoreOf (vectorIds vres) corpus,
        a ∉ vectorIds vres) ∧
      (get_entity_based_chunks entities (vectorIds vres) corpus).Nodup ∧
      (∀ a ∈ get_entity_based_chunks entities (vectorIds vres) corpus,
        a ∉ vectorIds vres) ∧
      retrieve_merged_ids vres store scoreOf corpus entities
        = vectorIds vres
            ++ get_cluster_chunks store (vectorClusterIds vres) (vectorIds vres)
            ++ get_bm25_chunks scoreOf (vectorIds vres) corpus
            ++ get_entity_based_chunks entities (vectorIds vres) corpus := by
  refine ⟨dedupFold_nodup _ _, dedupFold_not_mem_seen _ _, dedupFold_nodup _ _,
    dedupFold_not_mem_seen _ _, ?_, ?_, rfl⟩
  · unfold get_entity_based_chunks
    by_cases h1 : entities.isEmpty
    · rw [if_pos h1]; exact List.nodup_nil
    · rw [if_neg h1]
      by_cases h2 : (entities.filter fun e => e.type ∈ priorityTypes).isEmpty
      · rw [if_pos h2]; exact List.nodup_nil
      · rw [if_neg h2]; exact dedupFold_nodup _ _
  · unfold get_entity_based_chunks
    by_cases h1 : entities.isEmpty
    · rw [if_pos h1]; intro a ha; simp at ha
    · rw [if_neg h1]
      by_cases h2 : (entities.filter fun e => e.type ∈ priorityTypes).isEmpty
      · rw [if_pos h2]; intro a ha; simp at ha
      · rw [if_neg h2]; exact dedupFold_not_mem_seen _ _

/-- A vector hit (id 0, cluster 7) and a second chunk (id 1) that the
cluster, BM25 and entity searches each find independently. -/
def c2VecDoc : ChunkRow :=
  { id := 0, title := "t0", summary := "", content := "c0",
    status := none, cluster_id := some 7, parent_status := none }

def c2SharedDoc : ChunkRow :=
  { id := 1, title := "LFPDPPP", summary := "", content := "Datos personales",
    status := none, cluster_id := some 7, parent_status := none }

def c2ClusterStore : Int → List ChunkRow :=
  fun cid => if cid = 7 then [c2SharedDoc] else []

def c2Score : ChunkRow → ℚ := fun d => if d.id = 1 then 2 else 0

def c2Entities : List EntityInfo := [{ type := "regulation", value := "datos" }]

/-- C2 counterexample: with the concrete store above, the merged candidate
set is `[0, 1, 1, 1]` — chunk id 1 is contributed by the cluster, BM25
**and** entity searches, because each of them only skips the vector-search
ids. -/
theorem c2_counterexample :
    retrieve_merged_ids [c2VecDoc] c2ClusterStore c2Score [c2SharedDoc] c2Entities
        = [0, 1, 1, 1] ∧
      ¬ (retrieve_merged_ids [c2VecDoc] c2ClusterStore c2Score [c2SharedDoc]
          c2Entities).Nodup := by
  have h : retrieve_merged_ids [c2VecDoc] c2ClusterStore c2Score [c2SharedDoc]
      c2Entities = [0, 1, 1, 1] := by rfl
  refine ⟨h, ?_⟩
  rw [h]
  decide


/-- C2 witness: the per-search guarantees applied at the concrete store of
the counterexample. -/
theorem retrieve_merged_dedup_per_search_witness :
    (get_cluster_chunks c2ClusterStore (vectorClusterIds [c2VecDoc])
        (vectorIds [c2VecDoc])).Nodup ∧
      (get_bm25_chunks c2Score (vectorIds [c2VecDoc]) [c2SharedDoc]).Nodup :=
  ⟨(retrieve_merged_dedup_per_search [c2VecDoc] c2ClusterStore c2Score
      [c2SharedDoc] c2Entities).1,
    (retrieve_merged_dedup_per_search [c2VecDoc] c2ClusterStore c2Score
      [c2SharedDoc] c2Entities).2.2.1⟩

/-! ## Reranker TTL cache (claim C10)

`src/backend/utils/reranking_v1.py::TTLCache` (lines 21-78).  The two
Python dicts `cache` and `timestamps` are mutated in lock-step, so the
state is one insertion-ordered association list of (key, value, timestamp)
entries; `time.time()` is passed explicitly as `now`. -/

structure CacheEntry (α : Type) where
  key : String
  value : α
  ts : ℚ
  deriving Repr, DecidableEq

structure TTLCache (α : Type) where
  entries : List (CacheEntry α)
  max_size : Nat
  ttl : ℚ
  deriving Repr, DecidableEq

/-- Dict lookup `self.cache[key]` / `key in self.cache` (keys are unique in
a Python dict; the first match is the entry). -/
def lookupEntry {α : Type} (key : String) : List (CacheEntry α) → Option (CacheEntry α)
  | [] => none
  | e :: es => if e.key == key then some e else lookupEntry key es

/-- `TTLCache._cleanup_expired` (lines 65-70): drop every entry with
`now - ts > ttl`. -/
def cleanup_expired {α : Type} (now : ℚ) (c : TTLCache α) : TTLCache α :=
  { c with entries := c.entries.filter fun e => ! decide (c.ttl < now - e.ts) }

/-- `TTLCache.get` (lines 37-44): clean up, and on a hit refresh the
entry's timestamp to `now` (an in-place dict assignment) and return the
value. -/
def TTLCache.get {α : Type} (c : TTLCache α) (key : String) (now : ℚ) :
    Option α × TTLCache α :=
  match lookupEntry key (cleanup_expired now c).entries with
  | some e =>
    (some e.value,
      { cleanup_expired now c with
        entries := (cleanup_expired now c).entries.map fun e' =>
          if e'.key == key then { e' with ts := now } else e' })
  | none => (none, cleanup_expired now c)

/-- `min(self.timestamps.items(), key=lambda x: x[1])[0]`: the key of the
first entry with the smallest timestamp (Python's `min` keeps the first of
equals in iteration order).  `none` only on an empty cache, where Python
raises `ValueError`. -/
def oldestKey {α : Type} : List (CacheEntry α) → Option String
  | [] => none
  | e :: es =>
    some ((es.foldl (fun acc e' => if e'.ts < acc.ts then e' else acc) e).key)

/-- The capacity eviction of `TTLCache.set` (lines 50-53): when the cache
is full, remove the entry with the oldest timestamp.  (On an empty cache
Python's `min` would raise `ValueError`; that branch is unreachable for a
positive capacity and modelled as a no-op.) -/
def evictIfFull {α : Type} (c : TTLCache α) : TTLCache α :=
  if c.entries.length ≥ c.max_size then
    match oldestKey c.entries with
    | some k => { c with entries := c.entries.eraseP fun e => e.key == k }
    | none => c
  else c

/-- The dict writes `self.cache[key] = value; self.timestamps[key] =
time.time()` (lines 55-56): in place when the key exists, appended
otherwise. -/
def upsertEntry {α : Type} (key : String) (v : α) (now : ℚ) (c : TTLCache α) :
    TTLCache α :=
  if (lookupEntry key c.entries).isSome then
    { c with
      entries := c.entries.map fun e =>
        if e.key == key then { key := key, value := v, ts := now } else e }
  else
    { c with entries := c.entries ++ [⟨key, v, now⟩] }

/-- `TTLCache.set` (lines 46-56). -/
def TTLCache.set {α : Type} (c : TTLCache α) (key : String) (v : α) (now : ℚ) :
    TTLCache α :=
  upsertEntry key v now (evictIfFull (cleanup_expired now c))

theorem lookupEntry_filter {α : Type} (key : String) (q : CacheEntry α → Bool) :
    ∀ (l : List (CacheEntry α)) (e : CacheEntry α),
      lookupEntry key l = some e → q e = true →
      lookupEntry key (l.filter q) = some e := by
  intro l
  induction l with
  | nil => intro e he; simp [lookupEntry] at he
  | cons a as ih =>
    intro e he hq
    by_cases hpa : (a.key == key) = true
    · rw [lookupEntry, if_pos hpa] at he
      injection he with he
      subst he
      rw [List.filter_cons_of_pos hq, lookupEntry, if_pos hpa]
    · rw [lookupEntry, if_neg (by simpa using hpa)] at he
      by_cases hqa : q a = true
      · rw [List.filter_cons_of_pos hqa, lookupEntry,
          if_neg (by simpa using hpa)]
        exact ih e he hq
      · rw [List.filter_cons_of_neg (by simpa using hqa)]
        exact ih e he hq

theorem lookupEntry_refresh {α : Type} (key : String) (now : ℚ) :
    ∀ (l : List (CacheEntry α)) (e : CacheEntry α),
      lookupEntry key l = some e →
      lookupEntry key
          (l.map fun x => if x.key == key then { x with ts := now } else x)
        = some { e with ts := now } := by
  intro l
  induction l with
  | nil => intro e he; simp [lookupEntry] at he
  | cons a as ih =>
    intro e he
    by_cases hpa : (a.key == key) = true
    · rw [lookupEntry, if_pos hpa] at he
      injection he with he
      subst he
      rw [List.map_cons, if_pos hpa, lookupEntry, if_pos hpa]
    · rw [lookupEntry, if_neg (by simpa using hpa)] at he
      rw [List.map_cons, if_neg (by simpa using hpa), lookupEntry,
        if_neg (by simpa using hpa)]
      exact ih e he

/-- A fresh entry survives the cleanup, the hit returns its value, and its
timestamp is refreshed to the access time. -/
theorem ttlcache_get_fresh {α : Type} (c : TTLCache α) (key : String) (now : ℚ)
    (e : CacheEntry α)
    (hfind : lookupEntry key c.entries = some e)
    (hfresh : now - e.ts ≤ c.ttl) :
    (c.get key now).1 = some e.value ∧
      lookupEntry key (c.get key now).2.entries = some { e with ts := now } ∧
      (c.get key now).2.ttl = c.ttl ∧
      (c.get key now).2.max_size = c.max_size := by
  have hq : (! decide (c.ttl < now - e.ts)) = true := by
    simp only [Bool.not_eq_true', decide_eq_false_iff_not]
    exact not_lt.mpr hfresh
  have hfind' : lookupEntry key (cleanup_expired now c).entries = some e := by
    unfold cleanup_expired
    exact lookupEntry_filter key _ c.entries e hfind hq
  unfold TTLCache.get
  rw [hfind']
  exact ⟨rfl, lookupEntry_refresh key now (cleanup_expired now c).entries e hfind',
    rfl, rfl⟩

/-- Repeated gets of the same key at the given access times. -/
def foldGets {α : Type} (c : TTLCache α) (key : String) :
    List ℚ → List (Option α) × TTLCache α
  | [] => ([], c)
  | t :: ts =>
    ((c.get key t).1 :: (foldGets (c.get key t).2 key ts).1,
      (foldGets (c.get key t).2 key ts).2)

/-- Consecutive access gaps bounded by `ttl`, starting from timestamp
`prev`. -/
def gapsOK (ttl : ℚ) : ℚ → List ℚ → Bool
  | _, [] => true
  | prev, t :: ts => decide (t - prev ≤ ttl) && gapsOK ttl t ts

/-- An entry re-read at gaps within the TTL is never evicted as expired:
every get in the sequence is a hit. -/
theorem foldGets_all_hits {α : Type} (key : String) :
    ∀ (times : List ℚ) (c : TTLCache α) (e : CacheEntry α),
      lookupEntry key c.entries = some e →
      gapsOK c.ttl e.ts times = true →
      ∀ o ∈ (foldGets c key times).1, o.isSome := by
  intro times
  induction times with
  | nil => intro c e _ _ o ho; simp [foldGets] at ho
  | cons t ts ih =>
    intro c e hfind hgaps o ho
    rw [gapsOK, Bool.and_eq_true] at hgaps
    have hgap : t - e.ts ≤ c.ttl := of_decide_eq_true hgaps.1
    have hget := ttlcache_get_fresh c key t e hfind hgap
    rw [foldGets] at ho
    rcases List.mem_cons.mp ho with rfl | hmem
    · rw [hget.1]
      rfl
    · refine ih (c.get key t).2 { e with ts := t } hget.2.1 ?_ o hmem
      rw [hget.2.2.1]
      exact hgaps.2


theorem foldlMin_mem {α : Type} :
    ∀ (es : List (CacheEntry α)) (acc : CacheEntry α),
      es.foldl (fun acc e' => if e'.ts < acc.ts then e' else acc) acc = acc ∨
        es.foldl (fun acc e' => if e'.ts < acc.ts then e' else acc) acc ∈ es := by
  intro es
  induction es with
  | nil => intro acc; exact Or.inl rfl
  | cons e' es ih =>
    intro acc
    rw [List.foldl_cons]
    rcases ih (if e'.ts < acc.ts then e' else acc) with heq | hmem
    · rw [heq]
      by_cases h : e'.ts < acc.ts
      · rw [if_pos h]
        exact Or.inr (List.mem_cons_self _ _)
      · rw [if_neg h]
        exact Or.inl rfl
    · exact Or.inr (List.mem_cons_of_mem _ hmem)

theorem oldestKey_mem {α : Type} (l : List (CacheEntry α)) (k : String)
    (h : oldestKey l = some k) : ∃ x ∈ l, x.key = k := by
  cases l with
  | nil => simp [oldestKey] at h
  | cons e es =>
    rw [oldestKey] at h
    injection h with h
    rcases foldlMin_mem es e with heq | hmem
    · rw [heq] at h
      exact ⟨e, List.mem_cons_self e es, h⟩
    · exact ⟨_, List.mem_cons_of_mem e hmem, h⟩

theorem oldestKey_eq_none {α : Type} (l : List (CacheEntry α))
    (h : oldestKey l = none) : l = [] := by
  cases l with
  | nil => rfl
  | cons e es =>
    rw [oldestKey] at h
    simp at h

theorem upsertEntry_length {α : Type} (key : String) (v : α) (now : ℚ)
    (c : TTLCache α) :
    (upsertEntry key v now c).entries.length ≤ c.entries.length + 1 ∧
      (upsertEntry key v now c).max_size = c.max_size := by
  unfold upsertEntry
  by_cases h : (lookupEntry key c.entries).isSome = true
  · rw [if_pos h]
    refine ⟨?_, rfl⟩
    rw [List.length_map]
    omega
  · rw [if_neg h]
    refine ⟨?_, rfl⟩
    rw [List.length_append]
    simp

theorem evictIfFull_spec {α : Type} (c : TTLCache α) (hmax : 1 ≤ c.max_size)
    (hsize : c.entries.length ≤ c.max_size) :
    (evictIfFull c).entries.length + 1 ≤ c.max_size ∧
      (evictIfFull c).max_size = c.max_size := by
  unfold evictIfFull
  by_cases hfull : c.entries.length ≥ c.max_size
  · rw [if_pos hfull]
    have hlen : c.entries.length = c.max_size := le_antisymm hsize hfull
    cases holdest : oldestKey c.entries with
    | none =>
      have := oldestKey_eq_none c.entries holdest
      rw [this] at hlen
      simp at hlen
      omega
    | some k =>
      obtain ⟨x, hx, hk⟩ := oldestKey_mem c.entries k holdest
      have herase : (c.entries.eraseP fun e => e.key == k).length
          = c.entries.length - 1 :=
        List.length_eraseP_of_mem hx (by simp [hk])
      refine ⟨?_, rfl⟩
      rw [herase]
      omega
  · rw [if_neg hfull]
    refine ⟨?_, rfl⟩
    omega

/-- When `set` runs on a cache within capacity, the result stays within
capacity. -/
theorem ttlcache_set_capacity {α : Type} (c : TTLCache α) (key : String)
    (v : α) (now : ℚ) (hmax : 1 ≤ c.max_size)
    (hsize : c.entries.length ≤ c.max_size) :
    (c.set key v now).entries.length ≤ c.max_size ∧
      (c.set key v now).max_size = c.max_size := by
  have hclean : (cleanup_expired now c).entries.length ≤ c.entries.length :=
    List.length_filter_le _ _
  have hev := evictIfFull_spec (cleanup_expired now c) hmax (hclean.trans hsize)
  have hup := upsertEntry_length key v now (evictIfFull (cleanup_expired now c))
  unfold TTLCache.set
  constructor
  · calc (upsertEntry key v now (evictIfFull (cleanup_expired now c))).entries.length
        ≤ (evictIfFull (cleanup_expired now c)).entries.length + 1 := hup.1
      _ ≤ c.max_size := hev.1
  · rw [hup.2, hev.2]
    rfl

/-- C10: the reranker's TTL cache measures expiry from last access: a get
within `ttl` of the entry's stored timestamp is a hit, returns the stored
value and re-stamps the entry at the access time; consequently a sequence
of re-reads of the entry at gaps within the TTL always hits; and `set` on
a cache within its (positive) capacity keeps it within capacity, evicting
the entry with the oldest timestamp when full. -/
theorem ttlcache_spec {α : Type} (c : TTLCache α) (key : String) (v : α)
    (now : ℚ) (e : CacheEntry α) (times : List ℚ) :
    (lookupEntry key c.entries = some e → now - e.ts ≤ c.ttl →
      (c.get key now).1 = some e.value ∧
        lookupEntry key (c.get key now).2.entries = some { e with ts := now }) ∧
      (lookupEntry key c.entries = some e → gapsOK c.ttl e.ts times = true →
        ∀ o ∈ (foldGets c key times).1, o.isSome) ∧
      (1 ≤ c.max_size → c.entries.length ≤ c.max_size →
        (c.set key v now).entries.length ≤ c.max_size) :=
  ⟨fun h1 h2 => ⟨(ttlcache_get_fresh c key now e h1 h2).1,
      (ttlcache_get_fresh c key now e h1 h2).2.1⟩,
    fun h1 h2 => foldGets_all_hits key times c e h1 h2,
    fun h1 h2 => (ttlcache_set_capacity c key v now h1 h2).1⟩

def c10Cache : TTLCache Nat :=
  { entries := [⟨"q1", 42, 0⟩], max_size := 100, ttl := 3600 }

/-- C10 witness: the spec applied to a concrete one-entry cache: the get at
time 10 hits and re-stamps the entry, and a set keeps the size within
capacity. -/
theorem ttlcache_spec_witness :
    (c10Cache.get "q1" 10).1 = some 42 ∧
      lookupEntry "q1" (c10Cache.get "q1" 10).2.entries = some ⟨"q1", 42, 10⟩ ∧
      (c10Cache.set "q2" 7 10).entries.length ≤ 100 :=
  ⟨((ttlcache_spec c10Cache "q1" (7 : Nat) 10 ⟨"q1", 42, 0⟩ []).1 (by decide)
      (by show (10 : ℚ) - 0 ≤ 3600; norm_num)).1,
    ((ttlcache_spec c10Cache "q1" (7 : Nat) 10 ⟨"q1", 42, 0⟩ []).1 (by decide)
      (by show (10 : ℚ) - 0 ≤ 3600; norm_num)).2,
    (ttlcache_spec c10Cache "q2" (7 : Nat) 10 ⟨"q1", 42, 0⟩ []).2.2 (by decide)
      (by decide)⟩


/-! ## Score normalization (claim C7)

`src/backend/utils/reranking_v1.py::smart_normalize` (lines 374-427).  The
source computes on numpy float arrays; floating-point rounding is not the
subject of the claim, so scores are modelled as real numbers (the
definitions are noncomputable only because `ℝ` is).  `np.log1p(x)` is
`Real.log (1 + x)` and `min_threshold` is the default `0.1`. -/

/-- `np.min` over a nonempty array (0 on the empty array, unused). -/
noncomputable def npMin : List ℝ → ℝ
  | [] => 0
  | x :: xs => xs.foldl min x

/-- `np.max` over a nonempty array (0 on the empty array, unused). -/
noncomputable def npMax : List ℝ → ℝ
  | [] => 0
  | x :: xs => xs.foldl max x

/-- Lines 403-413: basic min-max normalization, zeros when the range is
degenerate. -/
noncomputable def minmaxNormalize (l : List ℝ) : List ℝ :=
  if npMax l - npMin l > 0 then l.map fun x => (x - npMin l) / (npMax l - npMin l)
  else l.map fun _ => 0

/-- Lines 415-417: `np.log1p(normalized + min_threshold)`. -/
noncomputable def log1pShift (l : List ℝ) : List ℝ :=
  l.map fun x => Real.log (1 + (x + 0.1))

/-- Lines 419-427: re-normalize the log-transformed values to `[0, 1]`,
returning the plain normalization when the log range is degenerate. -/
noncomputable def renormalizeLog (l : List ℝ) : List ℝ :=
  if npMax (log1pShift l) - npMin (log1pShift l) > 0 then
    (log1pShift l).map fun x =>
      (x - npMin (log1pShift l)) / (npMax (log1pShift l) - npMin (log1pShift l))
  else l

/-- `smart_normalize` (lines 374-427): empty input passes through; a
constant vector becomes all zeros (zero constant) or all ones (any other
constant); otherwise min-max normalize, apply `log1p(x + 0.1)`, and
re-min-max normalize. -/
noncomputable def smart_normalize : List ℝ → List ℝ
  | [] => []
  | s₀ :: rest =>
    if ∀ x ∈ s₀ :: rest, x = s₀ then
      if s₀ = 0 then (s₀ :: rest).map fun _ => 0
      else (s₀ :: rest).map fun _ => 1
    else renormalizeLog (minmaxNormalize (s₀ :: rest))

theorem foldl_min_le_init : ∀ (xs : List ℝ) (acc : ℝ), xs.foldl min acc ≤ acc := by
  intro xs
  induction xs with
  | nil => intro acc; exact le_refl acc
  | cons y ys ih =>
    intro acc
    rw [List.foldl_cons]
    exact (ih (min acc y)).trans (min_le_left acc y)

theorem foldl_min_le_mem :
    ∀ (xs : List ℝ) (acc x : ℝ), x ∈ xs → xs.foldl min acc ≤ x := by
  intro xs
  induction xs with
  | nil => intro acc x hx; simp at hx
  | cons y ys ih =>
    intro acc x hx
    rw [List.foldl_cons]
    rcases List.mem_cons.mp hx with rfl | hmem
    · exact (foldl_min_le_init ys (min acc x)).trans (min_le_right acc x)
    · exact ih (min acc y) x hmem

theorem foldl_max_ge_init : ∀ (xs : List ℝ) (acc : ℝ), acc ≤ xs.foldl max acc := by
  intro xs
  induction xs with
  | nil => intro acc; exact le_refl acc
  | cons y ys ih =>
    intro acc
    rw [List.foldl_cons]
    exact (le_max_left acc y).trans (ih (max acc y))

theorem foldl_max_ge_mem :
    ∀ (xs : List ℝ) (acc x : ℝ), x ∈ xs → x ≤ xs.foldl max acc := by
  intro xs
  induction xs with
  | nil => intro acc x hx; simp at hx
  | cons y ys ih =>
    intro acc x hx
    rw [List.foldl_cons]
    rcases List.mem_cons.mp hx with rfl | hmem
    · exact (le_max_right acc x).trans (foldl_max_ge_init ys (max acc x))
    · exact ih (max acc y) x hmem

theorem npMin_le_mem (l : List ℝ) : ∀ x ∈ l, npMin l ≤ x := by
  cases l with
  | nil => intro x hx; simp at hx
  | cons a as =>
    intro x hx
    rw [npMin]
    rcases List.mem_cons.mp hx with rfl | hmem
    · exact foldl_min_le_init as x
    · exact foldl_min_le_mem as a x hmem

theorem mem_le_npMax (l : List ℝ) : ∀ x ∈ l, x ≤ npMax l := by
  cases l with
  | nil => intro x hx; simp at hx
  | cons a as =>
    intro x hx
    rw [npMax]
    rcases List.mem_cons.mp hx with rfl | hmem
    · exact foldl_max_ge_init as x
    · exact foldl_max_ge_mem as a x hmem

theorem minmaxNormalize_bounds (l : List ℝ) :
    ∀ y ∈ minmaxNormalize l, 0 ≤ y ∧ y ≤ 1 := by
  intro y hy
  unfold minmaxNormalize at hy
  by_cases h : npMax l - npMin l > 0
  · rw [if_pos h] at hy
    obtain ⟨x, hx, rfl⟩ := List.mem_map.mp hy
    constructor
    · exact div_nonneg (sub_nonneg.mpr (npMin_le_mem l x hx)) h.le
    · rw [div_le_one h]
      exact sub_le_sub_right (mem_le_npMax l x hx) _
  · rw [if_neg h] at hy
    obtain ⟨x, _, rfl⟩ := List.mem_map.mp hy
    norm_num

theorem renormalizeLog_bounds (l : List ℝ) (hl : ∀ y ∈ l, 0 ≤ y ∧ y ≤ 1) :
    ∀ y ∈ renormalizeLog l, 0 ≤ y ∧ y ≤ 1 := by
  intro y hy
  unfold renormalizeLog at hy
  by_cases h : npMax (log1pShift l) - npMin (log1pShift l) > 0
  · rw [if_pos h] at hy
    obtain ⟨x, hx, rfl⟩ := List.mem_map.mp hy
    constructor
    · exact div_nonneg (sub_nonneg.mpr (npMin_le_mem (log1pShift l) x hx)) h.le
    · rw [div_le_one h]
      exact sub_le_sub_right (mem_le_npMax (log1pShift l) x hx) _
  · rw [if_neg h] at hy
    exact hl y hy

theorem minmaxNormalize_length (l : List ℝ) :
    (minmaxNormalize l).length = l.length := by
  unfold minmaxNormalize
  by_cases h : npMax l - npMin l > 0
  · rw [if_pos h, List.length_map]
  · rw [if_neg h, List.length_map]

theorem renormalizeLog_length (l : List ℝ) :
    (renormalizeLog l).length = l.length := by
  unfold renormalizeLog
  by_cases h : npMax (log1pShift l) - npMin (log1pShift l) > 0
  · rw [if_pos h, List.length_map]
    unfold log1pShift
    rw [List.length_map]
  · rw [if_neg h]

/-- C7: `smart_normalize` preserves the length; every output lies in
`[0, 1]`; a constant input becomes all zeros (zero constant) or all ones
(nonzero constant); and a non-constant input goes through min-max
normalization, the `log1p(x + 0.1)` transform, and a second min-max
normalization. -/
theorem smart_normalize_spec (s₀ : ℝ) (rest : List ℝ) :
    smart_normalize [] = [] ∧
      (smart_normalize (s₀ :: rest)).length = (s₀ :: rest).length ∧
      (∀ y ∈ smart_normalize (s₀ :: rest), 0 ≤ y ∧ y ≤ 1) ∧
      ((∀ x ∈ s₀ :: rest, x = s₀) →
        smart_normalize (s₀ :: rest)
          = (s₀ :: rest).map fun _ => if s₀ = 0 then (0 : ℝ) else 1) ∧
      (¬ (∀ x ∈ s₀ :: rest, x = s₀) →
        smart_normalize (s₀ :: rest)
          = renormalizeLog (minmaxNormalize (s₀ :: rest))) := by
  refine ⟨rfl, ?_, ?_, ?_, ?_⟩
  · simp only [smart_normalize]
    by_cases hc : ∀ x ∈ s₀ :: rest, x = s₀
    · rw [if_pos hc]
      by_cases h0 : s₀ = 0
      · rw [if_pos h0, List.length_map]
      · rw [if_neg h0, List.length_map]
    · rw [if_neg hc, renormalizeLog_length, minmaxNormalize_length]
  · intro y hy
    simp only [smart_normalize] at hy
    by_cases hc : ∀ x ∈ s₀ :: rest, x = s₀
    · rw [if_pos hc] at hy
      by_cases h0 : s₀ = 0
      · rw [if_pos h0] at hy
        obtain ⟨x, _, rfl⟩ := List.mem_map.mp hy
        norm_num
      · rw [if_neg h0] at hy
        obtain ⟨x, _, rfl⟩ := List.mem_map.mp hy
        norm_num
    · rw [if_neg hc] at hy
      exact renormalizeLog_bounds _ (minmaxNormalize_bounds _) y hy
  · intro hc
    simp only [smart_normalize]
    rw [if_pos hc]
    by_cases h0 : s₀ = 0
    · rw [if_pos h0]
      simp [h0]
    · rw [if_neg h0]
      simp [h0]
  · intro hc
    simp only [smart_normalize]
    rw [if_neg hc]

/-- C7 witness: a constant nonzero vector maps to all ones. -/
theorem smart_normalize_spec_witness : smart_normalize [(5 : ℝ), 5] = [1, 1] := by
  have h := (smart_normalize_spec 5 [5]).2.2.2.1 (by
    intro x hx
    rcases List.mem_cons.mp hx with h | h
    · exact h
    · simpa using h)
  rw [h]
  norm_num


/-! ## Reranker entry point and its size bound (claim C5)

`src/backend/utils/reranking_v1.py::rerank_chunks` (lines 905-999).  The
external computations are parameters: `cached` is the TTL-cache lookup
result, `adaptive` the outcome of `optimized_prepare_chunk_data` +
`adaptive_hybrid_rerank` (which returns a permutation of the chunks on
success), and the fallback's per-chunk LLM scores come as `scoreOf`.
`rerank_chunks_with_llm` (lines 1014-1084) is embedded from source: it
sorts the first `max_to_rerank` chunks by score descending and appends the
remaining chunks unchanged. -/

/-- `rerank_chunks_with_llm` (`reranking_v1.py` lines 1014-1084). -/
def rerank_chunks_with_llm {α : Type} (scoreOf : α → ℚ) (chunks : List α)
    (maxToRerank : Nat) : List α :=
  if chunks.length ≤ 1 then chunks
  else
    (List.insertionSort (fun a b => scoreOf b ≤ scoreOf a) (chunks.take maxToRerank))
      ++ chunks.drop maxToRerank

/-- `rerank_chunks` (`reranking_v1.py` lines 905-999): empty and singleton
inputs return immediately; a cache hit returns the cached list; on the
successful adaptive path the result is truncated to `max_to_return`; if
the adaptive reranker raises, the simple LLM fallback runs, and if that
also raises the chunks are returned unchanged — the two fallback paths
never apply the `max_to_return` truncation. -/
def rerank_chunks {α : Type} (chunks : List α) (maxToRerank : Nat)
    (maxToReturn : Option Nat) (cached : Option (List α))
    (adaptive : Except String (List α))
    (fallbackScores : Except String (α → ℚ)) : List α :=
  if chunks.isEmpty then []
  else if chunks.length = 1 then chunks
  else
    match cached with
    | some r => r
    | none =>
      match adaptive with
      | .ok ranked =>
        match maxToReturn with
        | some m => if ranked.length > m then ranked.take m else ranked
        | none => ranked
      | .error _ =>
        match fallbackScores with
        | .ok scoreOf => rerank_chunks_with_llm scoreOf chunks maxToRerank
        | .error _ => chunks

/-- C5 (amended): on the successful adaptive path (no cache hit) the
result has at most `max_to_return` elements whenever `max_to_return ≥ 1`;
but the LLM-only fallback returns a reordering of **all** the chunks and
the last-resort pass-through returns the chunks unchanged, so the bound
does not hold on the fallback paths. -/
theorem rerank_chunks_max_to_return {α : Type} (chunks ranked : List α)
    (maxToRerank m : Nat) (e e' : String) (sc : α → ℚ)
    (fb : Except String (α → ℚ)) (hm : 1 ≤ m) :
    (rerank_chunks chunks maxToRerank (some m) none (.ok ranked) fb).length ≤ m ∧
      rerank_chunks chunks maxToRerank (some m) none (.error e) (.ok sc)
        = rerank_chunks_with_llm sc chunks maxToRerank ∧
      (rerank_chunks_with_llm sc chunks maxToRerank).length = chunks.length ∧
      rerank_chunks chunks maxToRerank (some m) none (.error e) (.error e')
        = chunks := by
  refine ⟨?_, ?_, ?_, ?_⟩
  · unfold rerank_chunks
    by_cases h0 : chunks.isEmpty
    · rw [if_pos h0]
      exact Nat.zero_le m
    · rw [if_neg h0]
      by_cases h1 : chunks.length = 1
      · rw [if_pos h1]; omega
      · rw [if_neg h1]
        by_cases h2 : ranked.length > m
        · simp only [if_pos h2, List.length_take]
          omega
        · simp only [if_neg h2]
          omega
  · unfold rerank_chunks
    by_cases h0 : chunks.isEmpty
    · rw [if_pos h0]
      have hnil : chunks = [] := List.isEmpty_iff.mp h0
      rw [hnil]
      rfl
    · rw [if_neg h0]
      by_cases h1 : chunks.length = 1
      · rw [if_pos h1]
        unfold rerank_chunks_with_llm
        rw [if_pos (by omega)]
      · rw [if_neg h1]
  · unfold rerank_chunks_with_llm
    by_cases h1 : chunks.length ≤ 1
    · rw [if_pos h1]
    · rw [if_neg h1]
      rw [List.length_append, List.length_insertionSort, List.length_take,
        List.length_drop]
      omega
  · unfold rerank_chunks
    by_cases h0 : chunks.isEmpty
    · rw [if_pos h0]
      exact (List.isEmpty_iff.mp h0).symm
    · rw [if_neg h0]
      by_cases h1 : chunks.length = 1
      · rw [if_pos h1]
      · rw [if_neg h1]

/-- C5 witness: the success-path bound applied at a concrete input. -/
theorem rerank_chunks_max_to_return_witness :
    (rerank_chunks [1, 2, 3] 15 (some 2) none (.ok [3, 2, 1])
        (.ok fun _ => (0 : ℚ))).length ≤ 2 :=
  (rerank_chunks_max_to_return [1, 2, 3] [3, 2, 1] 15 2 "x" "y" (fun _ => 0)
    (.ok fun _ => 0) (by decide)).1

/-- C5 counterexample: with `max_to_return = 1`, an adaptive-path failure
and a working LLM fallback, `rerank_chunks` returns all 3 chunks; with
both paths failing it returns the input unchanged — in both runs the
result exceeds `max_to_return`. -/
theorem c5_counterexample :
    (rerank_chunks [10, 20, 30] 15 (some 1) none (.error "prep failed")
        (.ok fun _ => (0 : ℚ))).length = 3 ∧
      rerank_chunks [10, 20, 30] 15 (some 1) none (.error "prep failed")
        (.error "llm failed") = [10, 20, 30] := by
  constructor
  · rfl
  · rfl


/-! ## Regulatory text splitter (claims C3, C9)

`src/process_docs_2/_02_text_splitter.py`.  Python strings are modelled as
`List Char`.  `_chunk_regulatory_document` (lines 208-220) subdivides
every article whose content exceeds `DEFAULT_CHUNK_SIZE`; the
`ALLOW_ARTICLE_SUBDIVISION` flag (config.py line 40) is stored on the
splitter but never consulted there.  `_subdivide_article` (lines 408-459)
splits the content on blank-line runs (`re.split(r'\n{2,}', ...)`, with a
sentence-split fallback), accumulates paragraphs, and appends the final
accumulated fragment only when it is nonempty and at least
`MIN_CHUNK_SIZE` characters long. -/

/-- `shared/config.py` lines 34-40. -/
def DEFAULT_CHUNK_SIZE : Nat := 8000

def MIN_CHUNK_SIZE : Nat := 200

def ALLOW_ARTICLE_SUBDIVISION : Bool := false

/-- One article as `_extract_articles` produces it (the fields the
chunking step reads). -/
structure Article where
  number : String
  title : String
  content : List Char
  deriving Repr, DecidableEq

/-- One emitted chunk record (`_format_article_chunk`, lines 485-506;
the constant fields `cluster_size`, `has_overlap` and the copied
`hierarchy` are omitted). -/
structure ArticleChunk where
  text : List Char
  cluster_id : Nat
  article_number : String
  article_title : String
  is_subdivision : Bool
  deriving Repr, DecidableEq

def isNL (c : Char) : Bool := c == '\n'

/-- Python `\s` for the characters occurring here (str.strip / `\s+`). -/
def isWS (c : Char) : Bool :=
  c == ' ' || c == '\t' || c == '\n' || c == '\r'

/-- `re.split(r'\n{2,}', content)`: cut at every run of two or more
newlines, consuming the run. -/
def splitRuns : List Char → List Char → List (List Char)
  | [], cur => [cur]
  | c :: cs, cur =>
    if c = '\n' ∧ cs.head? = some '\n' then
      cur :: splitRuns (cs.dropWhile isNL) []
    else
      splitRuns cs (cur ++ [c])
termination_by l _ => l.length
decreasing_by
  · have h : (cs.dropWhile isNL).length ≤ cs.length :=
      List.Sublist.length_le (List.dropWhile_sublist isNL)
    simp only [List.length_cons]
    omega
  · simp only [List.length_cons]
    omega

/-- `re.split(r'(?<=\.)\s+', content)`: cut at every whitespace run that
follows a period, consuming the run. -/
def splitSentences : List Char → List Char → List (List Char)
  | [], cur => [cur]
  | c :: cs, cur =>
    if cur.getLast? = some '.' ∧ isWS c = true then
      cur :: splitSentences (cs.dropWhile isWS) []
    else
      splitSentences cs (cur ++ [c])
termination_by l _ => l.length
decreasing_by
  · have h : (cs.dropWhile isWS).length ≤ cs.length :=
      List.Sublist.length_le (List.dropWhile_sublist isWS)
    simp only [List.length_cons]
    omega
  · simp only [List.length_cons]
    omega

/-- Python `str.strip()`. -/
def pyStrip (s : List Char) : List Char :=
  ((s.dropWhile isWS).reverse.dropWhile isWS).reverse

/-- `_subdivide_article` lines 420-424: paragraphs are the nonblank
blank-line splits, falling back to sentence splits when fewer than two. -/
def paragraphsOf (content : List Char) : List (List Char) :=
  if ((splitRuns content []).filter fun p => !(pyStrip p).isEmpty).length < 2 then
    splitSentences content []
  else
    (splitRuns content []).filter fun p => !(pyStrip p).isEmpty

def nl2 : List Char := ['\n', '\n']

/-- The accumulation loop of `_subdivide_article` (lines 426-445): returns
the chunks emitted inside the loop and the final value of
`current_chunk`. -/
def subLoop : List (List Char) → List Char → List (List Char) × List Char
  | [], cur => ([], cur)
  | p :: ps, cur =>
    if cur.length + p.length > DEFAULT_CHUNK_SIZE ∧ cur.length ≥ MIN_CHUNK_SIZE then
      ((subLoop ps p).1.cons cur, (subLoop ps p).2)
    else
      subLoop ps (if cur.isEmpty then p else cur ++ nl2 ++ p)

/-- `_format_article_chunk` applied to the sub-chunks in order, numbering
them `<article>.<k>` from `k = 1` (lines 430-457). -/
def formatSubChunks (a : Article) (i : Nat) : Nat → List (List Char) → List ArticleChunk
  | _, [] => []
  | k, t :: ts =>
    { text := pyStrip t
      cluster_id := i
      article_number := a.number ++ "." ++ toString k
      article_title := a.title ++ " (Parte " ++ toString k ++ ")"
      is_subdivision := true } :: formatSubChunks a i (k + 1) ts

/-- `_subdivide_article` (lines 408-459): run the loop and append the
final `current_chunk` only when it is nonempty and at least
`MIN_CHUNK_SIZE` long. -/
def subdivide_article (a : Article) (i : Nat) : List ArticleChunk :=
  formatSubChunks a i 1
    ((subLoop (paragraphsOf a.content) []).1 ++
      (if (subLoop (paragraphsOf a.content) []).2 ≠ [] ∧
          (subLoop (paragraphsOf a.content) []).2.length ≥ MIN_CHUNK_SIZE then
        [(subLoop (paragraphsOf a.content) []).2]
      else []))

/-- `_create_article_chunk` (lines 461-483); `clean` stands for
`shared.utils.clean_headers_footers`. -/
def create_article_chunk (clean : List Char → List Char) (a : Article) (i : Nat) :
    ArticleChunk :=
  { text := pyStrip (clean a.content)
    cluster_id := i
    article_number := a.number
    article_title := a.title
    is_subdivision := false }

/-- The per-article loop of `_chunk_regulatory_document` (lines 210-218):
subdivide iff the content is longer than `DEFAULT_CHUNK_SIZE` — the
`ALLOW_ARTICLE_SUBDIVISION` flag is not consulted. -/
def chunkArticlesGo (clean : List Char → List Char) : Nat → List Article → List ArticleChunk
  | _, [] => []
  | i, a :: as =>
    (if DEFAULT_CHUNK_SIZE < a.content.length then subdivide_article a i
     else [create_article_chunk clean a i]) ++ chunkArticlesGo clean (i + 1) as

def chunk_regulatory_document (clean : List Char → List Char)
    (articles : List Article) : List ArticleChunk :=
  chunkArticlesGo clean 0 articles


theorem splitRuns_replicate (c : Char) (hc : c ≠ '\n') :
    ∀ (n : Nat) (rest cur : List Char),
      splitRuns (List.replicate n c ++ rest) cur
        = splitRuns rest (cur ++ List.replicate n c) := by
  intro n
  induction n with
  | zero => intro rest cur; simp
  | succ m ih =>
    intro rest cur
    rw [List.replicate_succ, List.cons_append]
    rw [splitRuns]
    rw [if_neg fun h => hc h.1]
    rw [ih rest (cur ++ [c])]
    congr 1
    rw [List.append_assoc, List.singleton_append, ← List.replicate_succ]

theorem splitRuns_break (rest cur : List Char) :
    splitRuns ('\n' :: '\n' :: rest) cur
      = cur :: splitRuns (rest.dropWhile isNL) [] := by
  rw [splitRuns]
  rw [if_pos ⟨rfl, rfl⟩]
  rw [List.dropWhile_cons_of_pos (by decide : isNL '\n' = true)]

theorem splitRuns_replicate_done (c : Char) (hc : c ≠ '\n') (n : Nat)
    (cur : List Char) :
    splitRuns (List.replicate n c) cur = [cur ++ List.replicate n c] := by
  calc splitRuns (List.replicate n c) cur
      = splitRuns (List.replicate n c ++ []) cur := by rw [List.append_nil]
    _ = splitRuns [] (cur ++ List.replicate n c) := splitRuns_replicate c hc n [] cur
    _ = [cur ++ List.replicate n c] := by rw [splitRuns]

theorem dropWhile_isNL_replicate_append (n : Nat) (c : Char) (hc : isNL c = false)
    (hn : n ≠ 0) (rest : List Char) :
    (List.replicate n c ++ rest).dropWhile isNL = List.replicate n c ++ rest := by
  cases n with
  | zero => exact absurd rfl hn
  | succ m =>
    rw [List.replicate_succ, List.cons_append,
      List.dropWhile_cons_of_neg (by simp [hc])]

theorem dropWhile_isNL_replicate (n : Nat) (c : Char) (hc : isNL c = false) :
    (List.replicate n c).dropWhile isNL = List.replicate n c := by
  cases n with
  | zero => rfl
  | succ m =>
    rw [List.replicate_succ, List.dropWhile_cons_of_neg (by simp [hc])]

theorem pyStrip_replicate (n : Nat) (c : Char) (hc : isWS c = false) :
    pyStrip (List.replicate n c) = List.replicate n c := by
  unfold pyStrip
  cases n with
  | zero => rfl
  | succ m =>
    rw [List.replicate_succ, List.dropWhile_cons_of_neg (by simp [hc]),
      ← List.replicate_succ, List.reverse_replicate, List.replicate_succ,
      List.dropWhile_cons_of_neg (by simp [hc]), ← List.replicate_succ,
      List.reverse_replicate]

theorem replicate_not_isEmpty (n : Nat) (c : Char) (hn : n ≠ 0) :
    (List.replicate n c).isEmpty = false := by
  cases n with
  | zero => exact absurd rfl hn
  | succ m => rw [List.replicate_succ]; rfl

theorem formatSubChunks_map_text (a : Article) (i : Nat) :
    ∀ (ts : List (List Char)) (k : Nat),
      (formatSubChunks a i k ts).map (fun ch => ch.text) = ts.map pyStrip := by
  intro ts
  induction ts with
  | nil => intro k; rfl
  | cons t ts ih =>
    intro k
    rw [formatSubChunks, List.map_cons, List.map_cons, ih (k + 1)]

theorem formatSubChunks_length (a : Article) (i : Nat) :
    ∀ (ts : List (List Char)) (k : Nat),
      (formatSubChunks a i k ts).length = ts.length := by
  intro ts
  induction ts with
  | nil => intro k; rfl
  | cons t ts ih =>
    intro k
    rw [formatSubChunks, List.length_cons, List.length_cons, ih (k + 1)]

theorem formatSubChunks_map_subdiv (a : Article) (i : Nat) :
    ∀ (ts : List (List Char)) (k : Nat),
      (formatSubChunks a i k ts).map (fun ch => ch.is_subdivision)
        = ts.map fun _ => true := by
  intro ts
  induction ts with
  | nil => intro k; rfl
  | cons t ts ih =>
    intro k
    rw [formatSubChunks, List.map_cons, List.map_cons, ih (k + 1)]

/-- An article of 8102 characters: two paragraphs of 4000 and 4100
non-blank characters separated by a blank line. -/
def c3Article : Article :=
  { number := "12", title := "Artículo 12°.-",
    content := List.replicate 4000 'a' ++ '\n' :: '\n' :: List.replicate 4100 'b' }

theorem c3_paras : paragraphsOf c3Article.content
    = [List.replicate 4000 'a', List.replicate 4100 'b'] := by
  have hsr : splitRuns c3Article.content []
      = [List.replicate 4000 'a', List.replicate 4100 'b'] := by
    show splitRuns (List.replicate 4000 'a' ++ '\n' :: '\n' :: List.replicate 4100 'b') [] = _
    rw [splitRuns_replicate 'a' (by decide) 4000, List.nil_append, splitRuns_break,
      dropWhile_isNL_replicate 4100 'b' (by decide),
      splitRuns_replicate_done 'b' (by decide) 4100 [], List.nil_append]
  have hfilt : (splitRuns c3Article.content []).filter (fun p => !(pyStrip p).isEmpty)
      = [List.replicate 4000 'a', List.replicate 4100 'b'] := by
    rw [hsr]
    rw [List.filter_cons_of_pos (by
      rw [pyStrip_replicate 4000 'a' (by decide),
        replicate_not_isEmpty 4000 'a' (by decide)]
      rfl)]
    rw [List.filter_cons_of_pos (by
      rw [pyStrip_replicate 4100 'b' (by decide),
        replicate_not_isEmpty 4100 'b' (by decide)]
      rfl)]
    rw [List.filter_nil]
  unfold paragraphsOf
  rw [hfilt]
  rw [if_neg (by
    rw [List.length_cons, List.length_cons, List.length_nil]
    decide)]

theorem c3_subLoop :
    subLoop [List.replicate 4000 'a', List.replicate 4100 'b'] []
      = ([List.replicate 4000 'a'], List.replicate 4100 'b') := by
  rw [subLoop]
  rw [if_neg (by
    rw [List.length_nil, List.length_replicate]
    decide)]
  rw [if_pos (by rfl)]
  rw [subLoop]
  rw [if_pos (by
    constructor
    · rw [List.length_replicate, List.length_replicate]; decide
    · rw [List.length_replicate]; decide)]
  rw [subLoop]

theorem c3_subdivide :
    (subdivide_article c3Article 0).map (fun ch => ch.is_subdivision)
        = [true, true] ∧
      (subdivide_article c3Article 0).length = 2 := by
  unfold subdivide_article
  rw [c3_paras, c3_subLoop]
  rw [if_pos (by
    constructor
    · intro h
      exact absurd (congrArg List.length h) (by rw [List.length_replicate]; decide)
    · rw [List.length_replicate]; decide)]
  constructor
  · rw [formatSubChunks_map_subdiv]
    rfl
  · rw [formatSubChunks_length]
    rfl

/-- C3: the claim says that with `ALLOW_ARTICLE_SUBDIVISION = False`
(the shipped default) an oversized article is emitted as one chunk.  The
flag is indeed false, but `_chunk_regulatory_document` never consults it:
the 8102-character article above is split into two subdivision chunks,
whatever the header-cleaning function does. -/
theorem c3_subdivision_flag_ignored :
    ALLOW_ARTICLE_SUBDIVISION = false ∧
      ∀ clean : List Char → List Char,
        (chunk_regulatory_document clean [c3Article]).map
            (fun ch => ch.is_subdivision)
          = [true, true] := by
  refine ⟨rfl, fun clean => ?_⟩
  unfold chunk_regulatory_document chunkArticlesGo
  rw [if_pos (by
    show DEFAULT_CHUNK_SIZE < c3Article.content.length
    show DEFAULT_CHUNK_SIZE <
      (List.replicate 4000 'a' ++ '\n' :: '\n' :: List.replicate 4100 'b').length
    rw [List.length_append, List.length_replicate, List.length_cons,
      List.length_cons, List.length_replicate]
    decide)]
  rw [show chunkArticlesGo clean (0 + 1) [] = [] from rfl, List.append_nil]
  exact c3_subdivide.1

def totalChars (ls : List (List Char)) : Nat := (ls.map List.length).sum

/-- An article of 16094 characters in three paragraphs of 8000, 7990 and
100 non-blank characters: the loop emits the first two and ends with the
100-character paragraph accumulated. -/
def c9Article : Article :=
  { number := "7", title := "Artículo 7°.-",
    content := List.replicate 8000 'a' ++ '\n' :: '\n' ::
      (List.replicate 7990 'c' ++ '\n' :: '\n' :: List.replicate 100 'b') }

theorem c9_paras : paragraphsOf c9Article.content
    = [List.replicate 8000 'a', List.replicate 7990 'c', List.replicate 100 'b'] := by
  have hsr : splitRuns c9Article.content []
      = [List.replicate 8000 'a', List.replicate 7990 'c', List.replicate 100 'b'] := by
    show splitRuns (List.replicate 8000 'a' ++ '\n' :: '\n' ::
      (List.replicate 7990 'c' ++ '\n' :: '\n' :: List.replicate 100 'b')) [] = _
    rw [splitRuns_replicate 'a' (by decide) 8000, List.nil_append, splitRuns_break,
      dropWhile_isNL_replicate_append 7990 'c' (by decide) (by decide),
      splitRuns_replicate 'c' (by decide) 7990, List.nil_append, splitRuns_break,
      dropWhile_isNL_replicate 100 'b' (by decide),
      splitRuns_replicate_done 'b' (by decide) 100 [], List.nil_append]
  have hfilt : (splitRuns c9Article.content []).filter (fun p => !(pyStrip p).isEmpty)
      = [List.replicate 8000 'a', List.replicate 7990 'c', List.replicate 100 'b'] := by
    rw [hsr]
    rw [List.filter_cons_of_pos (by
      rw [pyStrip_replicate 8000 'a' (by decide),
        replicate_not_isEmpty 8000 'a' (by decide)]
      rfl)]
    rw [List.filter_cons_of_pos (by
      rw [pyStrip_replicate 7990 'c' (by decide),
        replicate_not_isEmpty 7990 'c' (by decide)]
      rfl)]
    rw [List.filter_cons_of_pos (by
      rw [pyStrip_replicate 100 'b' (by decide),
        replicate_not_isEmpty 100 'b' (by decide)]
      rfl)]
    rw [List.filter_nil]
  unfold paragraphsOf
  rw [hfilt]
  rw [if_neg (by
    rw [List.length_cons, List.length_cons, List.length_cons, List.length_nil]
    decide)]

theorem c9_subLoop :
    subLoop [List.replicate 8000 'a', List.replicate 7990 'c',
        List.replicate 100 'b'] []
      = ([List.replicate 8000 'a', List.replicate 7990 'c'],
          List.replicate 100 'b') := by
  rw [subLoop]
  rw [if_neg (by
    rw [List.length_nil, List.length_replicate]
    decide)]
  rw [if_pos (by rfl)]
  rw [subLoop]
  rw [if_pos (by
    constructor
    · rw [List.length_replicate, List.length_replicate]; decide
    · rw [List.length_replicate]; decide)]
  rw [subLoop]
  rw [if_pos (by
    constructor
    · rw [List.length_replicate, List.length_replicate]; decide
    · rw [List.length_replicate]; decide)]
  rw [subLoop]

theorem c9Article_content_length : c9Article.content.length = 16094 := by
  show (List.replicate 8000 'a' ++ '\n' :: '\n' ::
    (List.replicate 7990 'c' ++ '\n' :: '\n' :: List.replicate 100 'b')).length = 16094
  rw [List.length_append, List.length_replicate, List.length_cons, List.length_cons,
    List.length_append, List.length_replicate, List.length_cons, List.length_cons,
    List.length_replicate]

/-- C9: the final accumulated fragment of `_subdivide_article` is emitted
only when it reaches `MIN_CHUNK_SIZE`: whenever the loop ends with a
fragment shorter than 200 characters, the emitted sub-chunks are exactly
the in-loop chunks and the fragment is dropped; on the concrete oversized
article above (16094 characters) the subdivision emits two chunks whose
texts total 15990 characters, strictly less than the article content. -/
theorem subdivide_drops_small_final_fragment :
    (∀ (a : Article) (i : Nat),
        (subLoop (paragraphsOf a.content) []).2.length < MIN_CHUNK_SIZE →
        (subdivide_article a i).map (fun ch => ch.text)
          = ((subLoop (paragraphsOf a.content) []).1).map pyStrip) ∧
      DEFAULT_CHUNK_SIZE < c9Article.content.length ∧
      (subdivide_article c9Article 0).length = 2 ∧
      totalChars ((subdivide_article c9Article 0).map fun ch => ch.text)
        < c9Article.content.length := by
  refine ⟨?_, ?_, ?_, ?_⟩
  · intro a i h
    unfold subdivide_article
    rw [if_neg fun hif => absurd hif.2 (by omega)]
    rw [List.append_nil]
    exact formatSubChunks_map_text a i _ 1
  · rw [c9Article_content_length]
    decide
  · unfold subdivide_article
    rw [c9_paras, c9_subLoop]
    rw [if_neg fun hif =>
      absurd hif.2 (by rw [List.length_replicate]; decide)]
    rw [List.append_nil, formatSubChunks_length]
    rfl
  · unfold subdivide_article
    rw [c9_paras, c9_subLoop]
    rw [if_neg fun hif =>
      absurd hif.2 (by rw [List.length_replicate]; decide)]
    rw [List.append_nil, formatSubChunks_map_text]
    rw [List.map_cons, List.map_cons, List.map_nil,
      pyStrip_replicate 8000 'a' (by decide), pyStrip_replicate 7990 'c' (by decide)]
    rw [c9Article_content_length]
    unfold totalChars
    rw [List.map_cons, List.map_cons, List.map_nil, List.length_replicate,
      List.length_replicate, List.sum_cons, List.sum_cons, List.sum_nil]
    decide

/-- C9 witness: the drop rule applied to the concrete article, whose final
fragment has 100 < 200 characters. -/
theorem subdivide_drops_small_final_fragment_witness :
    (subdivide_article c9Article 0).map (fun ch => ch.text)
      = ((subLoop (paragraphsOf c9Article.content) []).1).map pyStrip :=
  subdivide_drops_small_final_fragment.1 c9Article 0 (by
    rw [c9_paras, c9_subLoop]
    show (List.replicate 100 'b').length < MIN_CHUNK_SIZE
    rw [List.length_replicate]
    decide)



/-- An insert that fails exactly on chunk 1, to witness the ingest spec at
a concrete input. -/
def c6Insert : Nat → Except String Unit :=
  fun c => if c = 1 then .error "duplicate key value" else .ok ()

/-- C6 witness: the spec applied to two chunks of which the second fails:
the quarantine holds exactly the failed chunk with its error, and the
document is not marked ingested. -/
theorem ingest_document_spec_witness :
    (ingest_document c6Insert [0, 1]).quarantine
        = some (ingest_document c6Insert [0, 1]).failed_chunks ∧
      (ingest_document c6Insert [0, 1]).failed_chunks = [(1, "duplicate key value")] ∧
      (ingest_document c6Insert [0, 1]).ingested = false :=
  ⟨(ingest_document_spec c6Insert [0, 1]).2.2.2 (by decide), by decide, by decide⟩

/-! ## Conversation memory (claim C4)

`src/backend/agents/memory_manager.py::MemoryManager.save_messages`
(lines 164-211) and `load_messages` (lines 213-278).  A saved batch is one
row of `conversation_messages`; `load_messages` selects the session's
rows ordered by `created_at` **descending**, then walks each batch with
`for msg in reversed(messages)`, filtering out messages with a
`Tool`-named part and stopping (returning everything collected so far)
when the running `len(str(msg.parts)) // 4` token estimate would exceed
`max_tokens`.  The session-row token-counter update of `save_messages` is
not involved in the claim and is not modelled. -/

inductive PartKind where
  | systemPrompt
  | userPrompt
  | text
  | toolCall
  | toolReturn
  | retryPrompt
  deriving Repr, DecidableEq

/-- `'Tool' in part.__class__.__name__` for the pydantic-ai part classes
(`ToolCallPart`, `ToolReturnPart`). -/
def PartKind.isToolNamed : PartKind → Bool
  | .toolCall => true
  | .toolReturn => true
  | _ => false

/-- One `ModelMessage`; `chars` models `len(str(msg.parts))`. -/
structure Message where
  parts : List PartKind
  chars : Nat
  deriving Repr, DecidableEq

def hasToolPart (m : Message) : Bool := m.parts.any PartKind.isToolNamed

/-- `len(str(msg.parts)) // 4` (line 261). -/
def msgTokens (m : Message) : Nat := m.chars / 4

/-- One row of the `conversation_messages` table. -/
structure MsgRow where
  session_id : String
  message_history : List Message
  created_at : Nat
  deriving Repr, DecidableEq

/-- `save_messages`: insert one row with the serialized batch and the
current timestamp (lines 184-188). -/
def save_messages (rows : List MsgRow) (sid : String) (msgs : List Message)
    (now : Nat) : List MsgRow :=
  rows ++ [{ session_id := sid, message_history := msgs, created_at := now }]

/-- Several saves in order, on an empty table. -/
def save_all (sid : String) (batches : List (List Message × Nat)) : List MsgRow :=
  batches.foldl (fun rows bt => save_messages rows sid bt.1 bt.2) []

/-- `.order('created_at', desc=True)`. -/
def sortByCreatedDesc (rows : List MsgRow) : List MsgRow :=
  List.insertionSort (fun a b => b.created_at ≤ a.created_at) rows

/-- The inner loop over `reversed(messages)` (lines 246-272): skip
messages with a Tool part; abort the whole load (second component `none`)
when the token limit would be exceeded. -/
def loadBatch (maxT : Nat) : List Message → Nat → List Message × Option Nat
  | [], tot => ([], some tot)
  | m :: ms, tot =>
    if hasToolPart m then loadBatch maxT ms tot
    else if tot + msgTokens m > maxT then ([], none)
    else
      ((loadBatch maxT ms (tot + msgTokens m)).1.cons m,
        (loadBatch maxT ms (tot + msgTokens m)).2)

/-- The outer loop over the records (lines 240-272): the early `return`
on the token limit stops every later batch. -/
def loadRecords (maxT : Nat) : List (List Message) → Nat → List Message
  | [], _ => []
  | batch :: rest, tot =>
    match loadBatch maxT batch.reverse tot with
    | (msgs, some tot') => msgs ++ loadRecords maxT rest tot'
    | (msgs, none) => msgs

/-- `load_messages` (lines 213-278). -/
def load_messages (rows : List MsgRow) (sid : String) (maxT : Nat) :
    List Message :=
  loadRecords maxT
    ((sortByCreatedDesc (rows.filter fun r => r.session_id == sid)).map
      fun r => r.message_history)
    0

theorem save_all_eq (sid : String) :
    ∀ (batches : List (List Message × Nat)) (rows : List MsgRow),
      batches.foldl (fun rows bt => save_messages rows sid bt.1 bt.2) rows
        = rows ++ batches.map fun bt =>
            { session_id := sid, message_history := bt.1, created_at := bt.2 } := by
  intro batches
  induction batches with
  | nil => intro rows; simp
  | cons bt rest ih =>
    intro rows
    rw [List.foldl_cons, ih, List.map_cons]
    unfold save_messages
    rw [List.append_assoc, List.singleton_append]

theorem orderedInsert_append_last {α : Type} (r : α → α → Prop) [DecidableRel r]
    (x : α) :
    ∀ l : List α, (∀ y ∈ l, ¬ r x y) → List.orderedInsert r x l = l ++ [x] := by
  intro l
  induction l with
  | nil => intro _; rfl
  | cons y ys ih =>
    intro h
    rw [List.orderedInsert, if_neg (h y (List.mem_cons_self y ys)),
      ih fun z hz => h z (List.mem_cons_of_mem y hz)]
    rfl

theorem insertionSort_desc_of_ascending {α : Type} (key : α → Nat) :
    ∀ l : List α,
      l.Pairwise (fun a b => key a < key b) →
      List.insertionSort (fun a b => key b ≤ key a) l = l.reverse := by
  intro l
  induction l with
  | nil => intro _; rfl
  | cons x xs ih =>
    intro hp
    obtain ⟨hhead, htail⟩ := List.pairwise_cons.mp hp
    rw [List.insertionSort, ih htail]
    rw [orderedInsert_append_last (fun a b => key b ≤ key a) x xs.reverse
      fun y hy => not_le.mpr (hhead y (List.mem_reverse.mp hy))]
    rw [List.reverse_cons]

theorem loadBatch_no_abort (maxT : Nat) :
    ∀ (ms : List Message) (tot : Nat),
      tot + (ms.map msgTokens).sum ≤ maxT →
      loadBatch maxT ms tot
        = (ms.filter fun m => !hasToolPart m,
            some (tot + (((ms.filter fun m => !hasToolPart m).map msgTokens).sum))) := by
  intro ms
  induction ms with
  | nil => intro tot _; simp [loadBatch]
  | cons m ms ih =>
    intro tot htot
    rw [List.map_cons, List.sum_cons] at htot
    by_cases htool : hasToolPart m = true
    · rw [loadBatch, if_pos htool, List.filter_cons_of_neg (by simp [htool])]
      exact ih tot (by omega)
    · rw [loadBatch, if_neg htool,
        if_neg (by omega),
        ih (tot + msgTokens m) (by omega),
        List.filter_cons_of_pos (by simp [htool])]
      rw [List.map_cons, List.sum_cons, Nat.add_assoc]

theorem loadRecords_no_abort (maxT : Nat) :
    ∀ (bs : List (List Message)) (tot : Nat),
      tot + (bs.map fun b => (b.map msgTokens).sum).sum ≤ maxT →
      loadRecords maxT bs tot
        = (bs.map fun b => b.reverse.filter fun m => !hasToolPart m).flatten := by
  intro bs
  induction bs with
  | nil => intro tot _; rfl
  | cons b rest ih =>
    intro tot htot
    rw [List.map_cons, List.sum_cons] at htot
    have hb : tot + (b.reverse.map msgTokens).sum ≤ maxT := by
      rw [List.map_reverse, List.sum_reverse]
      omega
    have hfle : (((b.reverse.filter fun m => !hasToolPart m).map msgTokens).sum)
        ≤ (b.map msgTokens).sum := by
      calc (((b.reverse.filter fun m => !hasToolPart m).map msgTokens).sum)
          ≤ ((b.reverse.map msgTokens).sum) := by
            refine List.Sublist.sum_le_sum ?_ ?_
            · exact List.Sublist.map msgTokens (List.filter_sublist _)
            · intro x hx
              exact Nat.zero_le x
        _ = (b.map msgTokens).sum := by rw [List.map_reverse, List.sum_reverse]
    have hlb := loadBatch_no_abort maxT b.reverse tot hb
    rw [loadRecords, hlb]
    show (b.reverse.filter fun m => !hasToolPart m) ++
        loadRecords maxT rest
          (tot + (((b.reverse.filter fun m => !hasToolPart m).map msgTokens).sum))
      = ((b :: rest).map fun b => b.reverse.filter fun m => !hasToolPart m).flatten
    rw [List.map_cons, List.flatten_cons, ih _ (by omega)]

theorem flatten_rev_filter {α : Type} (p : α → Bool) :
    ∀ bl : List (List α),
      ((bl.reverse.map fun b => b.reverse.filter p)).flatten
        = ((bl.flatten).filter p).reverse := by
  intro bl
  induction bl with
  | nil => rfl
  | cons b bs ih =>
    rw [List.reverse_cons, List.map_append, List.flatten_append, ih]
    rw [List.flatten_cons, List.filter_append, List.reverse_append]
    rw [List.map_cons, List.map_nil, List.flatten_cons, List.flatten_nil,
      List.append_nil]
    rw [List.filter_reverse]

/-- C4 (amended): with strictly increasing save timestamps and a
sufficiently large `max_tokens`, `load_messages` after `save_messages`
returns the saved messages with tool-part messages filtered out, but in
the **reverse** of their original order: later-saved batches come first
and each batch is itself reversed. -/
theorem save_load_round_trip (sid : String) (batches : List (List Message × Nat))
    (maxT : Nat)
    (hchrono : (batches.map fun bt => bt.2).Pairwise (· < ·))
    (hbig : (batches.map fun bt => (bt.1.map msgTokens).sum).sum ≤ maxT) :
    load_messages (save_all sid batches) sid maxT
      = (((batches.map fun bt => bt.1).flatten).filter
          fun m => !hasToolPart m).reverse := by
  have hrows : save_all sid batches
      = batches.map fun bt => ⟨sid, bt.1, bt.2⟩ := by
    unfold save_all
    rw [save_all_eq, List.nil_append]
  have hfiltered : ((save_all sid batches).filter fun r => r.session_id == sid)
      = batches.map fun bt => ⟨sid, bt.1, bt.2⟩ := by
    rw [hrows]
    apply List.filter_eq_self.mpr
    intro r hr
    obtain ⟨bt, _, rfl⟩ := List.mem_map.mp hr
    exact beq_self_eq_true sid
  have hpair : (batches.map fun bt => (⟨sid, bt.1, bt.2⟩ : MsgRow)).Pairwise
      (fun a b => a.created_at < b.created_at) := by
    rw [List.pairwise_map]
    rw [List.pairwise_map] at hchrono
    exact hchrono
  have hsort : sortByCreatedDesc (batches.map fun bt => ⟨sid, bt.1, bt.2⟩)
      = (batches.map fun bt => (⟨sid, bt.1, bt.2⟩ : MsgRow)).reverse := by
    show List.insertionSort (fun a b : MsgRow => b.created_at ≤ a.created_at) _ = _
    exact insertionSort_desc_of_ascending (fun r : MsgRow => r.created_at) _ hpair
  unfold load_messages
  rw [hfiltered]
  rw [show sortByCreatedDesc (batches.map fun bt => ⟨sid, bt.1, bt.2⟩)
      = (batches.map fun bt => (⟨sid, bt.1, bt.2⟩ : MsgRow)).reverse from hsort]
  rw [List.map_reverse, List.map_map]
  show loadRecords maxT ((batches.map fun bt => bt.1).reverse) 0 = _
  have hbound : 0 + (((batches.map fun bt => bt.1).reverse).map
      fun b => (b.map msgTokens).sum).sum ≤ maxT := by
    rw [List.map_reverse, List.sum_reverse, List.map_map, Nat.zero_add]
    exact hbig
  rw [loadRecords_no_abort maxT _ 0 hbound]
  exact flatten_rev_filter (fun m => !hasToolPart m) (batches.map fun bt => bt.1)

def c4m1 : Message := { parts := [.userPrompt], chars := 40 }

def c4m2 : Message := { parts := [.text], chars := 80 }

def c4m3 : Message := { parts := [.userPrompt], chars := 120 }

/-- C4 witness: the amended round trip at two concrete one-message
batches. -/
theorem save_load_round_trip_witness :
    load_messages (save_all "s" [([c4m1], 1), ([c4m2], 2)]) "s" 100000
      = ((((([([c4m1], 1), ([c4m2], 2)] : List (List Message × Nat)).map
            fun bt => bt.1).flatten).filter fun m => !hasToolPart m)).reverse :=
  save_load_round_trip "s" [([c4m1], 1), ([c4m2], 2)] 100000 (by decide)
    (by decide)

/-- C4 counterexample: the claim predicts original order `[m1, m2, m3]`
for a first batch `[m1, m2]` saved before a second batch `[m3]`; the code
returns `[m3, m2, m1]` — later batches first, each batch reversed. -/
theorem c4_counterexample :
    load_messages (save_all "s" [([c4m1, c4m2], 1), ([c4m3], 2)]) "s" 100000
        = [c4m3, c4m2, c4m1] ∧
      [c4m3, c4m2, c4m1] ≠ [c4m1, c4m2, c4m3] := by
  constructor
  · rfl
  · decide


end RagAgent
